import Mathlib

set_option maxRecDepth 8000

/-!
Verification of the dental-lead-engine pipeline (`src/scoring.js`,
`src/server.js`, `src/llm.js` and the unnamed legacy variants) against its
natural-language specification.

Modelling conventions:
* website text and keyword patterns are `List Char`; the fixed keyword
  alternations of each regular expression in `detectFeatures` are modelled
  as substring tests on the lowercased text, one test per alternative;
* JavaScript numbers appearing in scoring are modelled as rationals `ℚ`
  (all constants are exact decimals) and `Math.round` as `round : ℚ → ℤ`,
  which is `⌊x + 1/2⌋`, the same round-half-up rule;
* the relational store is explicit state (`Store`), and each Supabase
  call becomes a pure function on it; row order of a select is list order;
* the host-platform URL parser used by `domainFrom` is an external
  collaborator and is modelled as an arbitrary function parameter `dF`
  (only its determinism is relevant to the claims);
* the `mapLimit` concurrency helper is modelled as a small-step transition
  system over worker statuses, quantified over all schedules.
-/

namespace DentalLeadEngine

/-! ### Feature detection (`src/scoring.js`, `detectFeatures`) -/

/-- ASCII lowercasing, as `text.toLowerCase()` acts on the all-ASCII
keyword patterns and inputs relevant here. -/
def lowerTxt (t : List Char) : List Char := t.map Char.toLower

/-- JavaScript line terminators, which `.` in a regular expression does not
match. -/
def isLineTerm (c : Char) : Bool :=
  c = '\n' || c = '\r' || c = Char.ofNat 8232 || c = Char.ofNat 8233

/-- Substring containment (JavaScript `haystack.includes(pat)`): `pat`
occurs contiguously in `hay`. -/
def containsSub (pat hay : List Char) : Bool :=
  (List.range (hay.length + 1)).any fun i => pat.isPrefixOf (hay.drop i)

/-- `re.test t` for a regular expression that is an alternation of plain
string literals. -/
def anyOf (pats : List String) (t : List Char) : Bool :=
  pats.any fun p => containsSub p.data t

/-- `re.test t` for the regular-expression fragment `a.*b`: an occurrence of
`a` followed, with no line terminator in between, by an occurrence of `b`
(neither pattern contains a line terminator). -/
def dotStar (a b : String) (t : List Char) : Bool :=
  (List.range (t.length + 1)).any fun i =>
    a.data.isPrefixOf (t.drop i) &&
      containsSub b.data (((t.drop i).drop a.data.length).takeWhile fun c => !isLineTerm c)

/-- Output of `detectFeatures`: seven capability flags plus the technology
tag list, in source declaration order. -/
structure Features where
  has_online_scheduling : Bool
  has_patient_portal : Bool
  has_text_reminders : Bool
  has_digital_forms : Bool
  has_online_payments : Bool
  has_virtual_consults : Bool
  has_advanced_imaging : Bool
  technologies : List String
deriving DecidableEq

/-- `detectFeatures(text='')` from `src/scoring.js`.  Each flag is the test
of the corresponding regular expression against the lowercased text; the
tag list appends one fixed name per true flag in declaration order.  The
function is total by construction (no `Option`/`Except`), mirroring the
source's lack of any failure path. -/
def detectFeatures (text : List Char) : Features :=
  let t := lowerTxt text
  let has_online_scheduling := anyOf [ "book online", "schedule online", "book appointment", "book now", "zocdoc", "localmed", "doctible", "nexhealth", "jane app", "setmore", "calendly"] t
  let has_patient_portal := anyOf [ "patient portal", "patient login", "my chart", "patient account"] t
  let has_text_reminders := anyOf [ "text reminders", "sms reminder", "text notification", "weave", "revenuewell", "solutionreach", "yapi"] t
  let has_digital_forms := anyOf [ "online forms", "digital forms", "paperless"] t || dotStar ("fill out") ("online") t
  let has_online_payments := anyOf [ "pay online", "online payment", "carecredit", "care credit", "financing"] t
  let has_virtual_consults := anyOf [ "virtual consultation", "video consultation", "teledentistry", "telehealth"] t
  let has_advanced_imaging := anyOf [ "3d imaging", "cbct", "cerec", "same day crown", "digital impression", "itero", "laser"] t
  let technologies :=
    (if has_online_scheduling then ["onlineScheduling"] else []) ++
    (if has_patient_portal then ["patientPortal"] else []) ++
    (if has_text_reminders then ["textReminders"] else []) ++
    (if has_digital_forms then ["digitalForms"] else []) ++
    (if has_online_payments then ["onlinePayments"] else []) ++
    (if has_virtual_consults then ["virtualConsults"] else []) ++
    (if has_advanced_imaging then ["advancedDentalTech"] else [])
  { has_online_scheduling := has_online_scheduling
    has_patient_portal := has_patient_portal
    has_text_reminders := has_text_reminders
    has_digital_forms := has_digital_forms
    has_online_payments := has_online_payments
    has_virtual_consults := has_virtual_consults
    has_advanced_imaging := has_advanced_imaging
    technologies := technologies }

/-! ### Tech score (`src/scoring.js`, `computeTechScore`) -/

/-- `computeTechScore(f)` from `src/scoring.js`: sequential accumulation of
the fixed weight of each true flag, then `Math.min(100, score)`. -/
def computeTechScore (f : Features) : Nat :=
  let score := 0
  let score := if f.has_online_scheduling then score + 25 else score
  let score := if f.has_patient_portal then score + 20 else score
  let score := if f.has_text_reminders then score + 15 else score
  let score := if f.has_digital_forms then score + 10 else score
  let score := if f.has_online_payments then score + 10 else score
  let score := if f.has_virtual_consults then score + 10 else score
  let score := if f.has_advanced_imaging then score + 10 else score
  min 100 score

/-- The weighted sum over true flags named by the spec (scheduling 25,
portal 20, reminders 15, forms 10, payments 10, virtual consults 10,
advanced imaging 10). -/
def techSum (f : Features) : Nat :=
  cond f.has_online_scheduling 25 0 + cond f.has_patient_portal 20 0 +
  cond f.has_text_reminders 15 0 + cond f.has_digital_forms 10 0 +
  cond f.has_online_payments 10 0 + cond f.has_virtual_consults 10 0 +
  cond f.has_advanced_imaging 10 0

/-- Number of true flags of a feature record. -/
def trueFlagCount (f : Features) : Nat :=
  cond f.has_online_scheduling 1 0 + cond f.has_patient_portal 1 0 +
  cond f.has_text_reminders 1 0 + cond f.has_digital_forms 1 0 +
  cond f.has_online_payments 1 0 + cond f.has_virtual_consults 1 0 +
  cond f.has_advanced_imaging 1 0

/-- Pointwise flag implication: every flag true in `f` is true in `g`. -/
def flagLe (f g : Features) : Prop :=
  (f.has_online_scheduling = true → g.has_online_scheduling = true) ∧
  (f.has_patient_portal = true → g.has_patient_portal = true) ∧
  (f.has_text_reminders = true → g.has_text_reminders = true) ∧
  (f.has_digital_forms = true → g.has_digital_forms = true) ∧
  (f.has_online_payments = true → g.has_online_payments = true) ∧
  (f.has_virtual_consults = true → g.has_virtual_consults = true) ∧
  (f.has_advanced_imaging = true → g.has_advanced_imaging = true)

instance (f g : Features) : Decidable (flagLe f g) := by
  unfold flagLe; infer_instance

/-! ### Composite score (`src/scoring.js`, `subscores`, `tierFromScore`) -/

/-- Argument object of `subscores`, with the source's destructuring
defaults. -/
structure ScoreInput where
  techScore : ℚ := 0
  rating : ℚ := 0
  reviews : ℚ := 0
  hasBooking : Bool := false
  specialtyBoost : ℚ := 0
deriving DecidableEq

/-- Result object of `subscores`. -/
structure Subscores where
  sTech : ℚ
  sBooking : ℚ
  sRating : ℚ
  sReviews : ℚ
  sSpecial : ℚ
  final : ℤ
deriving DecidableEq

/-- `subscores` from `src/scoring.js`.  `Math.round` is `round : ℚ → ℤ`
(round half toward positive infinity, as in JavaScript). -/
def subscores (a : ScoreInput) : Subscores :=
  let sTech := a.techScore
  let sBooking : ℚ := if a.hasBooking then 100 else 0
  let sRating : ℚ := max 0 (min 100 ((a.rating - 3.5) / 1.5 * 100))
  let sReviews : ℚ :=
    if a.reviews ≥ 200 then 100 else if a.reviews ≥ 100 then 80
    else if a.reviews ≥ 50 then 60 else if a.reviews ≥ 25 then 40
    else if a.reviews ≥ 10 then 20 else 0
  let sSpecial : ℚ := max 0 (min 100 a.specialtyBoost)
  let final : ℤ :=
    round ((0.40 : ℚ) * sTech + (0.15 : ℚ) * sBooking + (0.15 : ℚ) * sRating +
           (0.10 : ℚ) * sReviews + (0.20 : ℚ) * sSpecial)
  ⟨sTech, sBooking, sRating, sReviews, sSpecial, final⟩

/-- `tierFromScore` from `src/scoring.js`: inclusive lower bounds,
evaluated top-down; returns the `(tier, qual)` string pair. -/
def tierFromScore (score : ℤ) : String × String :=
  if score ≥ 80 then ("PLATINUM", "HOT")
  else if score ≥ 60 then ("GOLD", "HOT")
  else if score ≥ 40 then ("SILVER", "WARM")
  else if score ≥ 20 then ("BRONZE", "COOL")
  else ("BASIC", "COLD")

/-- Ordinal position of a tier name in BASIC < BRONZE < SILVER < GOLD <
PLATINUM. -/
def tierOrdinal (t : String) : Nat :=
  if t = "BASIC" then 0 else if t = "BRONZE" then 1
  else if t = "SILVER" then 2 else if t = "GOLD" then 3 else 4

/-- The scenario input of spec §8: rating 4.5, reviews 120, booking, tech
score 35, specialty boost 60. -/
def scenarioInput : ScoreInput :=
  { techScore := 35, rating := 4.5, reviews := 120, hasBooking := true, specialtyBoost := 60 }

/-- Feature record with a single true flag (online scheduling). -/
def fSchedOnly : Features :=
  ⟨true, false, false, false, false, false, false, []⟩

/-- Feature record with two true flags (digital forms and online payments). -/
def fFormsPay : Features :=
  ⟨false, false, false, true, true, false, false, []⟩

/-- Feature record with all flags false. -/
def fNone : Features :=
  ⟨false, false, false, false, false, false, false, []⟩

/-- Feature record produced by the spec §8 scenario text. -/
def scenarioText : List Char :=
  ("Book Online Now! We use CEREC same-day crowns.").data

/-! ### The relational store and the upsert (`src/server.js`) -/

/-- JavaScript truthiness of a nullable string: `null` and the empty
string are falsy. -/
def truthy : Option String → Bool
  | none => false
  | some s => !(s == "")

/-- `x || null` on a nullable string. -/
def normStr (o : Option String) : Option String :=
  if truthy o then o else none

/-- Opaque rendering of the empty JSON object written for a missing
`opening_hours`. -/
def emptyObjText : String := "\x7b\x7d"

/-- The normalized base record handed to `upsertLead` (built by the
webhook item worker from the raw crawler item). -/
structure Base where
  google_place_id : Option String := none
  name : Option String := none
  address : Option String := none
  city : Option String := none
  state : Option String := none
  postal_code : Option String := none
  latitude : Option ℚ := none
  longitude : Option ℚ := none
  phone : Option String := none
  website : Option String := none
  email : Option String := none
  rating : Option ℚ := none
  review_count : Option ℚ := none
  categories : Option (List String) := none
  opening_hours : Option String := none
  temporarily_closed : Bool := false
  permanently_closed : Bool := false
deriving DecidableEq

/-- A row of the `dental_leads` table.  `domain` is the DB-generated
column derived from `website`; the trailing score columns are written only
by `rescore`. -/
structure LeadRow where
  id : Nat
  google_place_id : Option String := none
  name : Option String := none
  address : Option String := none
  domain : Option String := none
  city : Option String := none
  state : Option String := none
  postal_code : Option String := none
  latitude : Option ℚ := none
  longitude : Option ℚ := none
  phone : Option String := none
  website : Option String := none
  email : Option String := none
  rating : Option ℚ := none
  review_count : Option ℚ := none
  categories : List String := []
  opening_hours : String := emptyObjText
  temporarily_closed : Bool := false
  permanently_closed : Bool := false
  tech_score : Option Nat := none
  tech_tier : Option String := none
  investment_level : Option String := none
  qualification_status : Option String := none
  final_score : Option ℤ := none
  final_score_explanation : Option String := none
deriving DecidableEq

/-- A row of the `lead_tech_analysis` table. -/
structure TechRow where
  id : Nat
  lead_id : Nat
  technologies : List String := []
  has_online_scheduling : Bool := false
  has_patient_portal : Bool := false
  has_text_reminders : Bool := false
  has_digital_forms : Bool := false
  has_online_payments : Bool := false
  has_virtual_consults : Bool := false
  has_advanced_imaging : Bool := false
  website_text_excerpt : Option (List Char) := none
  llm_specialties : List String := []
  llm_notes : Option String := none
deriving DecidableEq

/-- A row of the append-only `lead_events` table (payload blobs carry no
information any claim depends on and are not modelled). -/
structure EventRow where
  lead_id : Nat
  event_type : String
deriving DecidableEq

/-- The relational store: table contents plus the id sequences the DB
assigns on insert.  Select order is list order. -/
structure Store where
  leads : List LeadRow := []
  nextId : Nat := 1
  techRows : List TechRow := []
  techNextId : Nat := 1
  events : List EventRow := []
deriving DecidableEq

/-- The empty store. -/
def emptyStore : Store := {}

/-- The disjunctive identity filter of `upsertLead`: one `(column, value)`
condition per present identity key, in source order (external place id,
derived domain, phone).  `dF` is the host URL parser behind `domainFrom`
(`new URL(url).hostname`, `www.` stripped, lowercased; `none` on parse
failure), modelled as a function parameter. -/
def condList (dF : Option String → Option String) (base : Base) : List (String × String) :=
  [ (if truthy base.google_place_id then
       some (("google_place_id" : String), base.google_place_id.getD ("")) else none),
    (if truthy (dF base.website) then
       some (("domain" : String), (dF base.website).getD ("")) else none),
    (if truthy base.phone then
       some (("phone" : String), base.phone.getD ("")) else none) ].filterMap id

/-- The column of a lead row named by an identity condition. -/
def colValue (r : LeadRow) (col : String) : Option String :=
  if col = "google_place_id" then r.google_place_id
  else if col = "domain" then r.domain
  else if col = "phone" then r.phone
  else none

/-- PostgREST `or` filter over the identity conditions. -/
def rowMatches (conds : List (String × String)) (r : LeadRow) : Bool :=
  conds.any fun c => colValue r c.1 == some c.2

/-- Application of the `upsertLead` payload to a lead row (the columns the
insert/update writes; `domain` is regenerated by the DB from the written
`website`). -/
def writeLead (dF : Option String → Option String) (base : Base) (r : LeadRow) : LeadRow :=
  { r with
    google_place_id := normStr base.google_place_id,
    name := base.name,
    address := base.address,
    domain := dF base.website,
    city := base.city,
    state := base.state,
    postal_code := base.postal_code,
    latitude := base.latitude,
    longitude := base.longitude,
    phone := base.phone,
    website := base.website,
    email := base.email,
    rating := base.rating,
    review_count := base.review_count,
    categories := base.categories.getD [],
    opening_hours := base.opening_hours.getD emptyObjText,
    temporarily_closed := base.temporarily_closed,
    permanently_closed := base.permanently_closed }

/-- `upsertLead(base)` from `src/server.js`: build the disjunctive filter
from the present identity keys; if any is present, look up the first
matching row; update it in place if found, otherwise insert a fresh row.
Returns the durable lead id together with the new store. -/
def upsertLead (dF : Option String → Option String) (base : Base) (st : Store) : Nat × Store :=
  let conds := condList dF base
  let existing := if conds.isEmpty then none else st.leads.find? (rowMatches conds)
  match existing with
  | some r =>
      (r.id, { st with leads := st.leads.map fun x =>
                 if x.id == r.id then writeLead dF base x else x })
  | none =>
      (st.nextId, { st with leads := st.leads ++ [writeLead dF base { id := st.nextId }],
                            nextId := st.nextId + 1 })

/-! ### Primary vs legacy variant payloads (`src/server.js` `upsertLead`
vs `src/unnamed/part_001` `upsertLead`) -/

/-- A JavaScript payload value (tagged by shape). -/
inductive FieldVal where
  | s (v : Option String)
  | q (v : Option ℚ)
  | b (v : Bool)
  | ls (v : List String)
  | obj (v : String)
deriving DecidableEq

/-- The payload object built by the primary `upsertLead`
(`src/server.js`): the `domain` key is *not* written (DB-generated). -/
def primaryPayload (base : Base) : List (String × FieldVal) :=
  [ (("google_place_id" : String), FieldVal.s (normStr base.google_place_id)),
    (("name" : String), FieldVal.s base.name),
    (("address" : String), FieldVal.s base.address),
    (("city" : String), FieldVal.s base.city),
    (("state" : String), FieldVal.s base.state),
    (("postal_code" : String), FieldVal.s base.postal_code),
    (("latitude" : String), FieldVal.q base.latitude),
    (("longitude" : String), FieldVal.q base.longitude),
    (("phone" : String), FieldVal.s base.phone),
    (("website" : String), FieldVal.s base.website),
    (("email" : String), FieldVal.s base.email),
    (("rating" : String), FieldVal.q base.rating),
    (("review_count" : String), FieldVal.q base.review_count),
    (("categories" : String), FieldVal.ls (base.categories.getD [])),
    (("opening_hours" : String), FieldVal.obj (base.opening_hours.getD emptyObjText)),
    (("temporarily_closed" : String), FieldVal.b base.temporarily_closed),
    (("permanently_closed" : String), FieldVal.b base.permanently_closed) ]

/-- The payload object built by the legacy `upsertLead`
(`src/unnamed/part_001`): identical except it also writes
`domain: domain || null` right after `address`. -/
def legacyPayload (dF : Option String → Option String) (base : Base) : List (String × FieldVal) :=
  [ (("google_place_id" : String), FieldVal.s (normStr base.google_place_id)),
    (("name" : String), FieldVal.s base.name),
    (("address" : String), FieldVal.s base.address),
    (("domain" : String), FieldVal.s (normStr (dF base.website))),
    (("city" : String), FieldVal.s base.city),
    (("state" : String), FieldVal.s base.state),
    (("postal_code" : String), FieldVal.s base.postal_code),
    (("latitude" : String), FieldVal.q base.latitude),
    (("longitude" : String), FieldVal.q base.longitude),
    (("phone" : String), FieldVal.s base.phone),
    (("website" : String), FieldVal.s base.website),
    (("email" : String), FieldVal.s base.email),
    (("rating" : String), FieldVal.q base.rating),
    (("review_count" : String), FieldVal.q base.review_count),
    (("categories" : String), FieldVal.ls (base.categories.getD [])),
    (("opening_hours" : String), FieldVal.obj (base.opening_hours.getD emptyObjText)),
    (("temporarily_closed" : String), FieldVal.b base.temporarily_closed),
    (("permanently_closed" : String), FieldVal.b base.permanently_closed) ]

/-- The identity filter built by the legacy `upsertLead`
(`src/unnamed/part_001`, textually identical to the primary one). -/
def condListLegacy (dF : Option String → Option String) (base : Base) : List (String × String) :=
  [ (if truthy base.google_place_id then
       some (("google_place_id" : String), base.google_place_id.getD ("")) else none),
    (if truthy (dF base.website) then
       some (("domain" : String), (dF base.website).getD ("")) else none),
    (if truthy base.phone then
       some (("phone" : String), base.phone.getD ("")) else none) ].filterMap id

/-- Specialty-boost derivation in the primary `rescore` (`src/server.js`):
60 for cosmetic/aligners, 40 for any specialty, else 0. -/
def specialtyBoostPrimary (specialties : List String) : ℚ :=
  if specialties.contains ("cosmetic") || specialties.contains ("aligners") then 60
  else if specialties.length ≠ 0 then 40 else 0

/-- Specialty-boost derivation in the legacy `rescore`
(`src/unnamed/part_001`, textually identical). -/
def specialtyBoostLegacy (specialties : List String) : ℚ :=
  if specialties.contains ("cosmetic") || specialties.contains ("aligners") then 60
  else if specialties.length ≠ 0 then 40 else 0

/-! ### The webhook item worker (`src/server.js`) -/

/-- Keyword post-filter of the item worker: `true` means the item is
skipped.  Mirrors the two early returns (include list non-empty with no
match; exclude list non-empty with a match), keywords lowercased. -/
def keywordSkip (includeKeywords excludeKeywords : List String) (siteText : List Char) : Bool :=
  let low := lowerTxt siteText
  (!includeKeywords.isEmpty &&
     !(includeKeywords.any fun k => containsSub (lowerTxt k.data) low)) ||
  (!excludeKeywords.isEmpty &&
     (excludeKeywords.any fun k => containsSub (lowerTxt k.data) low))

/-- The fixed chain denylist of `src/server.js`, lowercased as in the
source. -/
def DEFAULT_CHAINS : List (List Char) :=
  ([ "Aspen Dental", "Western Dental", "Pacific Dental", "Heartland Dental",
     "Smile Direct Club", "Ideal Dental", "Bright Now Dental", "DentalWorks",
     "Affordable Dentures", "ClearChoice", "Coast Dental", "Great Expressions",
     "Aspire Dental", "Midwest Dental", "InterDent", "MB2 Dental",
     "Dental Care Alliance" ] : List String).map fun s => lowerTxt s.data

/-- Chain-avoidance test: some denylist entry is a substring of the
lowercased business name (`(base.name || '').toLowerCase().includes(c)`). -/
def chainMatch (name : Option String) : Bool :=
  DEFAULT_CHAINS.any fun c => containsSub c (lowerTxt (name.getD ("")).data)

/-- Classifier output, as absorbed by the worker (`enrichWithLLM`
degrades to empty tags/notes on any failure). -/
structure LLMOut where
  specialties : List String := []
  notes : String := ""
deriving DecidableEq

/-- Results of the worker's external collaborators, supplied as data: the
resolved website text (RAG actor with fetch fallback; both absorb their
failures), the deep-contacts outcome (`some n` = success with `n` items,
`none` = failure or skipped), and the classifier output. -/
structure ItemExternals where
  siteText : List Char := []
  deep : Option Nat := none
  llm : LLMOut := {}
deriving DecidableEq

/-- Append one audit event. -/
def insertEvent (st : Store) (lead_id : Nat) (ty : String) : Store :=
  { st with events := st.events ++ [{ lead_id := lead_id, event_type := ty }] }

/-- `saveTechMvp` from `src/server.js`: insert-or-update the one
`lead_tech_analysis` row keyed by lead id. -/
def saveTechMvp (lead_id : Nat) (features : Features) (siteText : List Char)
    (llm : LLMOut) (st : Store) : Store :=
  let row : TechRow :=
    { id := 0, lead_id := lead_id,
      technologies := features.technologies,
      has_online_scheduling := features.has_online_scheduling,
      has_patient_portal := features.has_patient_portal,
      has_text_reminders := features.has_text_reminders,
      has_digital_forms := features.has_digital_forms,
      has_online_payments := features.has_online_payments,
      has_virtual_consults := features.has_virtual_consults,
      has_advanced_imaging := features.has_advanced_imaging,
      website_text_excerpt := if siteText.isEmpty then none else some (siteText.take 1500),
      llm_specialties := llm.specialties,
      llm_notes := if llm.notes == "" then none else some llm.notes }
  match st.techRows.find? (fun r => r.lead_id == lead_id) with
  | some e =>
      { st with techRows := st.techRows.map fun r =>
          if r.id == e.id then { row with id := r.id } else r }
  | none =>
      { st with techRows := st.techRows ++ [{ row with id := st.techNextId }],
                techNextId := st.techNextId + 1 }

/-- The feature view `computeTechScore` takes of a (possibly missing)
tech-analysis row: `computeTechScore(tech || {})`, absent keys falsy. -/
def featuresOfTech : Option TechRow → Features
  | some r =>
      ⟨r.has_online_scheduling, r.has_patient_portal, r.has_text_reminders,
       r.has_digital_forms, r.has_online_payments, r.has_virtual_consults,
       r.has_advanced_imaging, r.technologies⟩
  | none => ⟨false, false, false, false, false, false, false, []⟩

/-- `rescore(lead_id)` from `src/server.js`: recompute the scores from the
stored lead and tech rows, write them onto the lead row, and append a
`rescored` event. -/
def rescore (lead_id : Nat) (st : Store) : Store :=
  let lead := st.leads.find? fun r => r.id == lead_id
  let tech := st.techRows.find? fun r => r.lead_id == lead_id
  let techScore := computeTechScore (featuresOfTech tech)
  let specialties := (tech.map TechRow.llm_specialties).getD []
  let ss := subscores
    { techScore := (techScore : ℚ),
      rating := ((lead.bind LeadRow.rating).getD 0),
      reviews := ((lead.bind LeadRow.review_count).getD 0),
      hasBooking := (tech.map TechRow.has_online_scheduling).getD false,
      specialtyBoost := specialtyBoostPrimary specialties }
  let tq := tierFromScore ss.final
  let st1 := { st with leads := st.leads.map fun r =>
    if r.id == lead_id then
      { r with tech_score := some techScore,
               tech_tier := some tq.1,
               investment_level := some tq.1,
               qualification_status := some tq.2,
               final_score := some ss.final,
               final_score_explanation := normStr (tech.bind TechRow.llm_notes) }
    else r }
  insertEvent st1 lead_id ("rescored")

/-- The item worker body after the chain filter (`src/server.js` webhook
worker): upsert, website-text acquisition (external, empty when no
website), keyword post-filter, best-effort deep contacts with its audit
event, feature detection, classifier, tech persistence, rescore, and the
final `created` event. -/
def procRest (includeKeywords excludeKeywords : List String)
    (dF : Option String → Option String) (ext : ItemExternals)
    (base : Base) (st : Store) : Store :=
  let r := upsertLead dF base st
  let siteText := if truthy base.website then ext.siteText else []
  if keywordSkip includeKeywords excludeKeywords siteText then r.2
  else
    let st2 :=
      if truthy base.website then
        match ext.deep with
        | some _ => insertEvent r.2 r.1 ("contacts_found")
        | none => r.2
      else r.2
    let features := detectFeatures siteText
    let st3 := saveTechMvp r.1 features siteText ext.llm st2
    let st4 := rescore r.1 st3
    insertEvent st4 r.1 ("created")

/-- The whole item worker: the chain-avoidance filter guards everything,
so a chain match under `avoidChains` leaves the store untouched. -/
def processItem (avoidChains : Bool) (includeKeywords excludeKeywords : List String)
    (dF : Option String → Option String) (ext : ItemExternals)
    (base : Base) (st : Store) : Store :=
  if avoidChains && chainMatch base.name then st
  else procRest includeKeywords excludeKeywords dF ext base st

/-! ### The bounded concurrent dispatcher (`mapLimit`, `src/server.js`)

`mapLimit` spawns `max 1 limit` pull-based async workers over a shared
index counter.  We model one worker as a status: `idle` (about to claim),
`busy idx` (its invocation of the iterator on item `idx` is in flight),
`done` (it claimed an index past the end and returned), or `dead idx`
(its invocation on item `idx` threw, rejecting that worker's loop).  A
schedule is a list of worker numbers; each step advances the named worker
by one atomic event-loop turn (claim-and-check, or invocation
completion).  The `claimed` and `completed` histories record which items
were handed to the iterator and which invocations returned normally. -/

/-- Status of one `mapLimit` worker. -/
inductive WStatus where
  | idle
  | busy (idx : Nat)
  | dead (idx : Nat)
  | done
deriving DecidableEq

/-- State of a `mapLimit` run: the shared counter `i`, the worker pool,
and the claim/completion histories. -/
structure MLState where
  ctr : Nat
  workers : List WStatus
  claimed : List Nat
  completed : List Nat
deriving DecidableEq

/-- Initial state: `Math.max(1, limit)` idle workers, counter 0. -/
def mlInit (K : Nat) : MLState :=
  { ctr := 0, workers := List.replicate (max 1 K) WStatus.idle,
    claimed := [], completed := [] }

/-- One atomic step of worker `w`: an idle worker runs
`const idx = i++; if (idx >= items.length) break;` and starts its
invocation; a busy worker's invocation resolves (throwing iff `throws`
holds of its index).  Steps of finished or dead workers do nothing. -/
def mlStep (N : Nat) (throws : Nat → Bool) (s : MLState) (w : Nat) : MLState :=
  match s.workers[w]? with
  | some WStatus.idle =>
      if s.ctr < N then
        { s with ctr := s.ctr + 1,
                 workers := s.workers.set w (WStatus.busy s.ctr),
                 claimed := s.claimed ++ [s.ctr] }
      else
        { s with ctr := s.ctr + 1, workers := s.workers.set w WStatus.done }
  | some (WStatus.busy idx) =>
      if throws idx then { s with workers := s.workers.set w (WStatus.dead idx) }
      else { s with workers := s.workers.set w WStatus.idle,
                    completed := s.completed ++ [idx] }
  | _ => s

/-- Run a schedule from the initial state. -/
def mlRun (N : Nat) (throws : Nat → Bool) (K : Nat) (sched : List Nat) : MLState :=
  sched.foldl (mlStep N throws) (mlInit K)

/-- Worker-status discriminators. -/
def isBusy : WStatus → Bool
  | WStatus.busy _ => true
  | _ => false

def isDead : WStatus → Bool
  | WStatus.dead _ => true
  | _ => false

def isDone : WStatus → Bool
  | WStatus.done => true
  | _ => false

/-- Test for a worker in flight on item `i`. -/
def isBusyAt (i : Nat) : WStatus → Bool
  | WStatus.busy j => j == i
  | _ => false

/-- Test for a worker dead on item `i`. -/
def isDeadAt (i : Nat) : WStatus → Bool
  | WStatus.dead j => j == i
  | _ => false

/-- Number of invocations in flight. -/
def busyCount (s : MLState) : Nat := s.workers.countP isBusy

/-- A run is quiescent when no worker can take a step (every worker
returned or died); this is where `Promise.all(workers)` has settled. -/
def quiescent (s : MLState) : Bool := s.workers.all fun st => isDone st || isDead st

/-- Indices whose invocations threw, one per dead worker. -/
def deadIdxs (s : MLState) : List Nat :=
  s.workers.filterMap fun st =>
    match st with
    | WStatus.dead i => some i
    | _ => none

/-- Inductive invariant of the dispatcher: the claim history is exactly
the first `min ctr N` indices in order; every claimed index is accounted
for exactly once by a completion, an in-flight worker, or a dead worker;
completions did not throw, dead workers did; and a returned worker
witnesses that the counter passed `N`. -/
def mlInv (N : Nat) (throws : Nat → Bool) (s : MLState) : Prop :=
  s.claimed = List.range (min s.ctr N) ∧
  (∀ i : Nat, s.claimed.count i =
      s.completed.count i +
      s.workers.countP (isBusyAt i) +
      s.workers.countP (isDeadAt i)) ∧
  (∀ i ∈ s.completed, throws i = false) ∧
  (∀ st ∈ s.workers, ∀ i : Nat, st = WStatus.dead i → throws i = true) ∧
  ((∃ st ∈ s.workers, st = WStatus.done) → N ≤ s.ctr)

/-- Witness inputs for the dispatcher scenario: 10 items, limit 3, the
fourth item's invocation throws. -/
def throwsW : Nat → Bool := fun i => i == 3

/-- A complete round-robin schedule for the scenario. -/
def schedW : List Nat := (List.range 45).map fun n => n % 3

/-- A trivial domain derivation for witnesses (parse always fails). -/
def dFw : Option String → Option String := fun _ => none

/-- Witness base record: identity key present through the phone. -/
def baseW : Base := { name := some ("Bright Smiles"), phone := some ("5551234") }

/-- Witness base record for the chain filter. -/
def baseAspen : Base := { name := some ("Aspen Dental of Springfield") }

/-- Witness base record for the payload-variant counterexample. -/
def baseC4 : Base := { website := some ("https://example.com") }

/-- Witness domain derivation for the payload-variant counterexample. -/
def dFC4 : Option String → Option String := fun _ => some ("example.com")

/-! ### Theorems -/

/-- Helper: `computeTechScore` is the clipped weighted sum. -/
theorem computeTechScore_eq_min_techSum (f : Features) :
    computeTechScore f = min 100 (techSum f) := by
  obtain ⟨a, b, c, d, e, g, h, t⟩ := f
  cases a <;> cases b <;> cases c <;> cases d <;> cases e <;> cases g <;> cases h <;> rfl

/-- Helper: a weighted indicator is monotone under flag implication. -/
theorem cond_weight_mono (b c : Bool) (w : Nat) (h : b = true → c = true) :
    cond b w 0 ≤ cond c w 0 := by
  cases b <;> cases c <;> simp_all

/-- C5 (amended): `computeTechScore` is monotone with respect to pointwise
flag inclusion (turning any flag from false to true never decreases the
score), never exceeds 100, and equals the weighted sum over true flags
(scheduling 25, portal 20, reminders 15, forms 10, payments 10, virtual
consults 10, advanced imaging 10) clipped to 100. -/
theorem computeTechScore_spec :
    (∀ f g : Features, flagLe f g → computeTechScore f ≤ computeTechScore g) ∧
    (∀ f : Features, computeTechScore f ≤ 100) ∧
    (∀ f : Features, computeTechScore f = min 100 (techSum f)) := by
  refine ⟨?_, ?_, computeTechScore_eq_min_techSum⟩
  · intro f g hle
    rw [computeTechScore_eq_min_techSum, computeTechScore_eq_min_techSum]
    refine min_le_min le_rfl ?_
    obtain ⟨h1, h2, h3, h4, h5, h6, h7⟩ := hle
    unfold techSum
    exact Nat.add_le_add (Nat.add_le_add (Nat.add_le_add (Nat.add_le_add
      (Nat.add_le_add (Nat.add_le_add (cond_weight_mono _ _ _ h1)
        (cond_weight_mono _ _ _ h2)) (cond_weight_mono _ _ _ h3))
        (cond_weight_mono _ _ _ h4)) (cond_weight_mono _ _ _ h5))
        (cond_weight_mono _ _ _ h6)) (cond_weight_mono _ _ _ h7)
  · intro f
    rw [computeTechScore_eq_min_techSum]
    exact min_le_left _ _

/-- C5 witness: the amended theorem applied at concrete flag records. -/
theorem computeTechScore_spec_witness :
    flagLe fNone fSchedOnly ∧ computeTechScore fNone ≤ computeTechScore fSchedOnly :=
  ⟨by decide, computeTechScore_spec.1 fNone fSchedOnly (by decide)⟩

/-- C5 counterexample: the claim read literally — the score is monotone
non-decreasing in the *number* of true flags — fails: one true flag
(scheduling, weight 25) outscores two true flags (forms and payments,
weight 10 each). -/
theorem computeTechScore_count_counterexample :
    trueFlagCount fSchedOnly ≤ trueFlagCount fFormsPay ∧
    ¬ computeTechScore fSchedOnly ≤ computeTechScore fFormsPay := by
  decide

/-- C6: `detectFeatures` is total by construction (it returns a plain
`Features`, with no failure path in the source), and on absent/empty input
(the source's default parameter is the empty string) every flag is false
and the technology tag list is empty. -/
theorem detectFeatures_empty :
    detectFeatures [] =
      { has_online_scheduling := false, has_patient_portal := false,
        has_text_reminders := false, has_digital_forms := false,
        has_online_payments := false, has_virtual_consults := false,
        has_advanced_imaging := false, technologies := [] } := by
  decide

/-- C7: on the scenario text, exactly the scheduling and advanced-imaging
flags are set, the technology list is `[onlineScheduling,
advancedDentalTech]` in that order, and the tech score is 35. -/
theorem detectFeatures_scenario :
    (detectFeatures scenarioText).has_online_scheduling = true ∧
    (detectFeatures scenarioText).has_advanced_imaging = true ∧
    (detectFeatures scenarioText).has_patient_portal = false ∧
    (detectFeatures scenarioText).has_text_reminders = false ∧
    (detectFeatures scenarioText).has_digital_forms = false ∧
    (detectFeatures scenarioText).has_online_payments = false ∧
    (detectFeatures scenarioText).has_virtual_consults = false ∧
    (detectFeatures scenarioText).technologies = ["onlineScheduling", "advancedDentalTech"] ∧
    computeTechScore (detectFeatures scenarioText) = 35 := by
  decide

/-- C3: the spec §8 scoring scenario.  The rating subscore is exactly
200/3 (66.67 to two decimals), the final score is 59, and 59 maps to
SILVER/WARM, falling below the inclusive GOLD lower bound 60. -/
theorem subscores_scenario :
    (subscores scenarioInput).sRating = 200 / 3 ∧
    round ((100 : ℚ) * (200 / 3)) = (6667 : ℤ) ∧
    (subscores scenarioInput).final = 59 ∧
    tierFromScore 59 = (("SILVER" : String), ("WARM" : String)) ∧
    ¬ ((60 : ℤ) ≤ 59) := by
  refine ⟨?_, ?_, ?_, by decide, by decide⟩
  · norm_num [subscores, scenarioInput]
  · norm_num [round_eq]
  · norm_num [subscores, scenarioInput, round_eq]

/-- Helper: the tier ordinal of a score, as a step function. -/
theorem tierOrdinal_tierFromScore (s : ℤ) :
    tierOrdinal (tierFromScore s).1 =
      if s ≥ 80 then 4 else if s ≥ 60 then 3 else if s ≥ 40 then 2
      else if s ≥ 20 then 1 else 0 := by
  unfold tierFromScore tierOrdinal
  split_ifs <;> simp_all

/-- C10: `tierFromScore` is total on all integers (it is a function
`ℤ → String × String`); every score below 20, negatives included, yields
BASIC/COLD; every score of 80 or more, values above 100 included, yields
PLATINUM/HOT; and the tier is monotone in the score under the ordinal
order BASIC < BRONZE < SILVER < GOLD < PLATINUM. -/
theorem tierFromScore_total_monotone :
    (∀ s : ℤ, s < 20 → tierFromScore s = (("BASIC" : String), ("COLD" : String))) ∧
    (∀ s : ℤ, 80 ≤ s → tierFromScore s = (("PLATINUM" : String), ("HOT" : String))) ∧
    (∀ s1 s2 : ℤ, s1 ≤ s2 →
      tierOrdinal (tierFromScore s1).1 ≤ tierOrdinal (tierFromScore s2).1) := by
  refine ⟨?_, ?_, ?_⟩
  · intro s h
    unfold tierFromScore
    split_ifs <;> first | rfl | omega
  · intro s h
    unfold tierFromScore
    rw [if_pos h]
  · intro s1 s2 h
    rw [tierOrdinal_tierFromScore, tierOrdinal_tierFromScore]
    split_ifs <;> omega

/-- Helper: a present nullable string equals `some` of its default read. -/
theorem truthy_eq_some (o : Option String) (h : truthy o = true) :
    o = some (o.getD ("")) := by
  cases o with
  | none => simp [truthy] at h
  | some s => rfl

/-- Helper: the row written by the upsert payload satisfies every
identity condition built from the same base; in particular it satisfies
the disjunctive filter as soon as some identity key is present. -/
theorem rowMatches_writeLead (dF : Option String → Option String) (base : Base)
    (r : LeadRow) (h : condList dF base ≠ []) :
    rowMatches (condList dF base) (writeLead dF base r) = true := by
  by_cases h1 : truthy base.google_place_id
  · refine List.any_eq_true.mpr
      ⟨(("google_place_id" : String), base.google_place_id.getD ("")), ?_, ?_⟩
    · simp [condList, h1]
    · show (colValue (writeLead dF base r) ("google_place_id") ==
        some (base.google_place_id.getD (""))) = true
      have : colValue (writeLead dF base r) ("google_place_id") =
          normStr base.google_place_id := rfl
      rw [this, normStr, if_pos h1, ← truthy_eq_some base.google_place_id h1]
      simp
  · by_cases h2 : truthy (dF base.website)
    · refine List.any_eq_true.mpr
        ⟨(("domain" : String), (dF base.website).getD ("")), ?_, ?_⟩
      · simp [condList, h2]
      · show (colValue (writeLead dF base r) ("domain") ==
          some ((dF base.website).getD (""))) = true
        have : colValue (writeLead dF base r) ("domain") = dF base.website := rfl
        rw [this, ← truthy_eq_some (dF base.website) h2]
        simp
    · by_cases h3 : truthy base.phone
      · refine List.any_eq_true.mpr
          ⟨(("phone" : String), base.phone.getD ("")), ?_, ?_⟩
        · simp [condList, h1, h2, h3]
        · show (colValue (writeLead dF base r) ("phone") ==
            some (base.phone.getD (""))) = true
          have : colValue (writeLead dF base r) ("phone") = base.phone := rfl
          rw [this, ← truthy_eq_some base.phone h3]
          simp
      · exact absurd (by simp [condList, h1, h2, h3]) h

/-- Helper: the written row keeps the row id. -/
theorem writeLead_id (dF : Option String → Option String) (base : Base) (r : LeadRow) :
    (writeLead dF base r).id = r.id := rfl

/-- Helper: appending a matching row to a list with no match makes it the
first match. -/
theorem find?_append_singleton {α : Type} (p : α → Bool) (l : List α) (a : α)
    (h : l.find? p = none) (ha : p a = true) : (l ++ [a]).find? p = some a := by
  induction l with
  | nil => simp [List.find?, ha]
  | cons b tl ih =>
    have hb : p b = false := by
      by_contra hb
      rw [List.find?_cons_of_pos _ (by revert hb; cases p b <;> simp)] at h
      exact Option.noConfusion h
    rw [List.find?_cons_of_neg _ (by simp [hb])] at h
    rw [List.cons_append, List.find?_cons_of_neg _ (by simp [hb])]
    exact ih h

/-- Helper: updating the first match (and any row sharing its id) with a
write that itself matches leaves the first match at the same id. -/
theorem find?_map_update (p : LeadRow → Bool) (w : LeadRow → LeadRow)
    (hw : ∀ x, p (w x) = true) (hid : ∀ x, (w x).id = x.id) :
    ∀ (l : List LeadRow) (r0 : LeadRow), l.find? p = some r0 →
      ∃ r1, (l.map fun x => if x.id == r0.id then w x else x).find? p = some r1 ∧
        r1.id = r0.id := by
  intro l
  induction l with
  | nil => intro r0 h; simp [List.find?] at h
  | cons a tl ih =>
    intro r0 h
    by_cases hpa : p a = true
    · rw [List.find?_cons_of_pos _ hpa] at h
      have ha : a = r0 := by injection h
      subst ha
      have hbeq : (a.id == a.id) = true := by simp
      refine ⟨w a, ?_, hid a⟩
      simp only [List.map_cons, hbeq, if_pos rfl]
      exact List.find?_cons_of_pos _ (hw a)
    · have hpa' : p a = false := by revert hpa; cases p a <;> simp
      rw [List.find?_cons_of_neg _ (by simp [hpa'])] at h
      by_cases hida : (a.id == r0.id) = true
      · refine ⟨w a, ?_, (hid a).trans (beq_iff_eq.mp hida)⟩
        simp only [List.map_cons, if_pos hida]
        exact List.find?_cons_of_pos _ (hw a)
      · obtain ⟨r1, h1, h2⟩ := ih r0 h
        refine ⟨r1, ?_, h2⟩
        simp only [List.map_cons, if_neg hida]
        rw [List.find?_cons_of_neg _ (by simp [hpa'])]
        exact h1

/-- C1: `upsertLead` is idempotent whenever the incoming record carries at
least one identity key (external place id, derived domain, or phone): the
second call on the same record finds the row the first call wrote through
the disjunctive filter and updates it in place, returning the same lead
id, leaving the row count and the id sequence unchanged — no duplicate
row. -/
theorem upsertLead_idempotent (dF : Option String → Option String) (base : Base)
    (st : Store) (h : condList dF base ≠ []) :
    (upsertLead dF base (upsertLead dF base st).2).1 = (upsertLead dF base st).1 ∧
    (upsertLead dF base (upsertLead dF base st).2).2.leads.length =
      (upsertLead dF base st).2.leads.length ∧
    (upsertLead dF base (upsertLead dF base st).2).2.nextId =
      (upsertLead dF base st).2.nextId := by
  have hne : (condList dF base).isEmpty = false := by
    cases hc : condList dF base with
    | nil => exact absurd hc h
    | cons a l => rfl
  cases hfind : st.leads.find? (rowMatches (condList dF base)) with
  | none =>
    -- first call inserts a fresh row at the end; the second call finds it
    have h2 : (st.leads ++ [writeLead dF base { id := st.nextId }]).find?
        (rowMatches (condList dF base)) = some (writeLead dF base { id := st.nextId }) :=
      find?_append_singleton _ _ _ hfind (rowMatches_writeLead dF base _ h)
    simp only [upsertLead, hne, Bool.false_eq_true, if_false, hfind, h2,
      List.length_map, List.length_append]
    refine ⟨?_, ?_, ?_⟩ <;> trivial
  | some r0 =>
    -- first call updates the first matching row in place; the second call
    -- finds a row carrying the same id
    obtain ⟨r1, hfind2, hid2⟩ :=
      find?_map_update (rowMatches (condList dF base)) (writeLead dF base)
        (fun x => rowMatches_writeLead dF base x h)
        (writeLead_id dF base) st.leads r0 hfind
    simp only [upsertLead, hne, Bool.false_eq_true, if_false, hfind, hfind2,
      List.length_map]
    refine ⟨?_, ?_, ?_⟩ <;> first | exact hid2 | trivial

/-- C1 witness: the theorem at a concrete record (phone key present) over
the empty store, plus the concrete fact that two runs leave exactly one
lead row. -/
theorem upsertLead_idempotent_witness :
    condList dFw baseW ≠ [] ∧
    ((upsertLead dFw baseW (upsertLead dFw baseW emptyStore).2).1 =
        (upsertLead dFw baseW emptyStore).1 ∧
      (upsertLead dFw baseW (upsertLead dFw baseW emptyStore).2).2.leads.length =
        (upsertLead dFw baseW emptyStore).2.leads.length ∧
      (upsertLead dFw baseW (upsertLead dFw baseW emptyStore).2).2.nextId =
        (upsertLead dFw baseW emptyStore).2.nextId) ∧
    (upsertLead dFw baseW (upsertLead dFw baseW emptyStore).2).2.leads.length = 1 :=
  ⟨by decide, upsertLead_idempotent dFw baseW emptyStore (by decide), by decide⟩

/-- C4 counterexample: the two `upsertLead` variants do not build equal
payload objects — the legacy variant writes a `domain` key the primary
variant omits — so the variants do not differ only in retry wrapping,
concurrency primitive, and logging verbosity. -/
theorem payload_variants_counterexample :
    legacyPayload dFC4 baseC4 ≠ primaryPayload baseC4 := by
  decide

/-- C4 (amended): for every input, the legacy `upsertLead` payload agrees
with the primary one on every field other than `domain` (which the
primary variant leaves to the DB-generated column), the two variants
build identical identity-match conditions, and their `rescore` routines
derive identical specialty boosts (the scoring functions themselves are
shared imports). -/
theorem payload_variants_agree_modulo_domain :
    (∀ (dF : Option String → Option String) (base : Base),
      (legacyPayload dF base).filter (fun kv => !(kv.1 == "domain")) = primaryPayload base) ∧
    (∀ (dF : Option String → Option String) (base : Base),
      condListLegacy dF base = condList dF base) ∧
    (∀ specialties : List String,
      specialtyBoostLegacy specialties = specialtyBoostPrimary specialties) := by
  refine ⟨fun dF base => ?_, fun dF base => rfl, fun specialties => rfl⟩
  rfl

/-- C8 counterexample: with `includeKeywords = ["cerec"]`, an item whose
site text contains "Cerec" is nonetheless filtered out when an exclude
keyword also occurs in the text, contradicting "not filtered out …
regardless of excludeKeywords". -/
theorem keywordSkip_counterexample :
    containsSub (lowerTxt ("Cerec").data) (lowerTxt ("We use Cerec crowns.").data) = true ∧
    keywordSkip ["cerec"] ["crowns"] ("We use Cerec crowns.").data = true := by
  decide

/-- C8 (amended): if the include list is non-empty and no include keyword
occurs (case-insensitively) in the site text, the item is skipped; if the
exclude list is non-empty and some exclude keyword occurs, the item is
skipped; with `includeKeywords = ["cerec"]`, an item whose text contains
"cerec" is not filtered out provided no exclude keyword occurs in its
text, and an item without "cerec" is filtered out regardless of
`excludeKeywords`. -/
theorem keywordSkip_spec :
    (∀ (inc exc : List String) (t : List Char), inc ≠ [] →
       (∀ k ∈ inc, containsSub (lowerTxt k.data) (lowerTxt t) = false) →
       keywordSkip inc exc t = true) ∧
    (∀ (inc exc : List String) (t : List Char) (k : String), exc ≠ [] → k ∈ exc →
       containsSub (lowerTxt k.data) (lowerTxt t) = true →
       keywordSkip inc exc t = true) ∧
    (∀ (exc : List String) (t : List Char),
       containsSub (lowerTxt ("cerec").data) (lowerTxt t) = true →
       (∀ k ∈ exc, containsSub (lowerTxt k.data) (lowerTxt t) = false) →
       keywordSkip ["cerec"] exc t = false) ∧
    (∀ (exc : List String) (t : List Char),
       containsSub (lowerTxt ("cerec").data) (lowerTxt t) = false →
       keywordSkip ["cerec"] exc t = true) := by
  refine ⟨?_, ?_, ?_, ?_⟩
  · intro inc exc t hne hall
    have h1 : inc.isEmpty = false := by
      cases inc with
      | nil => exact absurd rfl hne
      | cons a l => rfl
    have h2 : (inc.any fun k => containsSub (lowerTxt k.data) (lowerTxt t)) = false := by
      rw [List.any_eq_false]
      intro k hk
      simp [hall k hk]
    simp [keywordSkip, h1, h2]
  · intro inc exc t k hne hk hmatch
    have h1 : exc.isEmpty = false := by
      cases exc with
      | nil => exact absurd rfl hne
      | cons a l => rfl
    have h2 : (exc.any fun k => containsSub (lowerTxt k.data) (lowerTxt t)) = true :=
      List.any_eq_true.mpr ⟨k, hk, hmatch⟩
    simp [keywordSkip, h1, h2]
  · intro exc t hcerec hall
    have h2 : (exc.any fun k => containsSub (lowerTxt k.data) (lowerTxt t)) = false := by
      rw [List.any_eq_false]
      intro k hk
      simp [hall k hk]
    simp [keywordSkip, hcerec, h2]
  · intro exc t hcerec
    simp [keywordSkip, hcerec]

/-- C8 witness: the amended theorem applied at concrete keyword lists and
texts. -/
theorem keywordSkip_spec_witness :
    (containsSub (lowerTxt ("cerec").data) (lowerTxt scenarioText) = true ∧
      keywordSkip ["cerec"] ["medicaid"] scenarioText = false) ∧
    keywordSkip ["cerec"] ["medicaid"] (("A general dental office.").data) = true :=
  ⟨⟨by decide, keywordSkip_spec.2.2.1 ["medicaid"] scenarioText (by decide) (by decide)⟩,
   keywordSkip_spec.2.2.2 ["medicaid"] (("A general dental office.").data) (by decide)⟩

/-- C9: the chain-avoidance filter is a frame property of the item
worker: with `avoidChains` set and a denylist entry occurring
case-insensitively in the business name, the worker returns the store
unchanged — no lead upsert, no tech row, no score write, no events; with
`avoidChains` unset the very same item runs the normal post-filter
pipeline. -/
theorem chainFilter_frame (includeKeywords excludeKeywords : List String)
    (dF : Option String → Option String) (ext : ItemExternals)
    (base : Base) (st : Store) :
    (chainMatch base.name = true →
       processItem true includeKeywords excludeKeywords dF ext base st = st) ∧
    (processItem false includeKeywords excludeKeywords dF ext base st =
       procRest includeKeywords excludeKeywords dF ext base st) := by
  constructor
  · intro h
    simp [processItem, h]
  · rfl

/-- C9 witness: "Aspen Dental of Springfield" matches the denylist; with
`avoidChains` it is skipped with the store untouched, without it the
worker runs the pipeline, which does write a lead row. -/
theorem chainFilter_frame_witness :
    chainMatch baseAspen.name = true ∧
    processItem true [] [] dFw {} baseAspen emptyStore = emptyStore ∧
    processItem false [] [] dFw {} baseAspen emptyStore =
      procRest [] [] dFw {} baseAspen emptyStore ∧
    (procRest [] [] dFw {} baseAspen emptyStore).leads.length = 1 :=
  ⟨by decide,
   (chainFilter_frame [] [] dFw {} baseAspen emptyStore).1 (by decide),
   (chainFilter_frame [] [] dFw {} baseAspen emptyStore).2,
   by decide⟩

/-- Helper: effect of writing one worker slot on a status count. -/
theorem countP_set_eq (l : List WStatus) (w : Nat) (a b : WStatus) (p : WStatus → Bool)
    (h : l[w]? = some a) :
    (l.set w b).countP p + cond (p a) 1 0 =
      l.countP p + cond (p b) 1 0 := by
  induction l generalizing w with
  | nil => simp at h
  | cons x tl ih =>
    cases w with
    | zero =>
      have hx : x = a := by simpa using h
      subst hx
      simp only [List.set_cons_zero, List.countP_cons, Bool.cond_eq_ite]
      omega
    | succ n =>
      have h2 : tl[n]? = some a := by simpa using h
      have := ih n h2
      simp only [List.set_cons_succ, List.countP_cons, Bool.cond_eq_ite] at this ⊢
      omega

/-- Helper: counting after appending one element. -/
theorem count_append_singleton (l : List Nat) (x i : Nat) :
    (l ++ [x]).count i = l.count i + cond (x == i) 1 0 := by
  rw [List.count_append]
  by_cases h : x = i
  · subst h; simp
  · have hb : (x == i) = false := by simp [h]
    simp [List.count_cons, hb, h]

/-- Helper: the dead-index list counts dead workers per index. -/
theorem deadIdxs_count (l : List WStatus) (i : Nat) :
    (l.filterMap fun st =>
        match st with
        | WStatus.dead j => some j
        | _ => none).count i = l.countP (isDeadAt i) := by
  induction l with
  | nil => rfl
  | cons st tl ih =>
    cases st with
    | idle => simpa [List.countP_cons, isDeadAt] using ih
    | busy j => simpa [List.countP_cons, isDeadAt] using ih
    | done => simpa [List.countP_cons, isDeadAt] using ih
    | dead j =>
      by_cases hj : j = i
      · subst hj
        simpa [List.filterMap_cons, List.count_cons, List.countP_cons, isDeadAt] using ih
      · simpa [List.filterMap_cons, List.count_cons, List.countP_cons, isDeadAt, hj] using ih

/-- Helper: the dead-index list has one entry per dead worker. -/
theorem deadIdxs_length (l : List WStatus) :
    (l.filterMap fun st =>
        match st with
        | WStatus.dead j => some j
        | _ => none).length = l.countP isDead := by
  induction l with
  | nil => rfl
  | cons st tl ih =>
    cases st with
    | idle => simpa [List.countP_cons, isDead] using ih
    | busy j => simpa [List.countP_cons, isDead] using ih
    | done => simpa [List.countP_cons, isDead] using ih
    | dead j => simpa [List.filterMap_cons, List.countP_cons, isDead] using ih

/-- Helper: at quiescence the pool splits into returned and dead workers. -/
theorem countP_done_dead (l : List WStatus) (h : ∀ st ∈ l, (isDone st || isDead st) = true) :
    l.countP isDone + l.countP isDead = l.length := by
  induction l with
  | nil => rfl
  | cons st tl ih =>
    have hh := h st (List.mem_cons_self st tl)
    have htl := fun x hx => h x (List.mem_cons_of_mem st hx)
    cases st with
    | idle => simp [isDone, isDead] at hh
    | busy j => simp [isDone, isDead] at hh
    | done =>
      have := ih htl
      simp [List.countP_cons, isDone, isDead]
      omega
    | dead j =>
      have := ih htl
      simp [List.countP_cons, isDone, isDead]
      omega

/-- Helper: one step never changes the pool size. -/
theorem mlStep_workers_length (N : Nat) (th : Nat → Bool) (s : MLState) (w : Nat) :
    (mlStep N th s w).workers.length = s.workers.length := by
  unfold mlStep
  cases hw : s.workers[w]? with
  | none => rfl
  | some st =>
    cases st with
    | idle => by_cases hc : s.ctr < N <;> simp [hc, List.length_set]
    | busy idx => by_cases ht : th idx = true <;> simp [ht, List.length_set]
    | dead idx => rfl
    | done => rfl

/-- Helper: a run keeps `Math.max(1, limit)` workers. -/
theorem mlRun_workers_length (N : Nat) (th : Nat → Bool) (K : Nat) (sched : List Nat) :
    (mlRun N th K sched).workers.length = max 1 K := by
  suffices h : ∀ s : MLState, ((sched.foldl (mlStep N th) s)).workers.length = s.workers.length by
    rw [mlRun, h, mlInit]
    simp
  induction sched with
  | nil => intro s; rfl
  | cons a tl ih =>
    intro s
    rw [List.foldl_cons, ih, mlStep_workers_length]

/-- Helper: the invariant holds initially. -/
theorem mlInv_init (N : Nat) (th : Nat → Bool) (K : Nat) : mlInv N th (mlInit K) := by
  refine ⟨?_, ?_, ?_, ?_, ?_⟩
  · simp [mlInit]
  · intro i
    have hb : (List.replicate (max 1 K) WStatus.idle).countP (isBusyAt i) = 0 :=
      List.countP_eq_zero.mpr fun st hst => by
        rw [List.eq_of_mem_replicate hst]; simp [isBusyAt]
    have hd : (List.replicate (max 1 K) WStatus.idle).countP (isDeadAt i) = 0 :=
      List.countP_eq_zero.mpr fun st hst => by
        rw [List.eq_of_mem_replicate hst]; simp [isDeadAt]
    simp [mlInit, hb, hd]
  · intro i hi
    simp [mlInit] at hi
  · intro st hst i hdead
    rw [List.eq_of_mem_replicate hst] at hdead
    exact WStatus.noConfusion hdead
  · rintro ⟨st, hst, hdone⟩
    rw [List.eq_of_mem_replicate hst] at hdone
    exact absurd hdone (by simp [mlInit])

/-- Helper: the invariant is preserved by every step of every worker. -/
theorem mlInv_step (N : Nat) (th : Nat → Bool) (s : MLState) (w : Nat)
    (hInv : mlInv N th s) : mlInv N th (mlStep N th s w) := by
  obtain ⟨h1, h2, h3, h4, h5⟩ := hInv
  unfold mlStep
  cases hw : s.workers[w]? with
  | none => exact ⟨h1, h2, h3, h4, h5⟩
  | some st =>
    cases st with
    | idle =>
      by_cases hc : s.ctr < N
      · simp only [hc, if_true]
        refine ⟨?_, ?_, h3, ?_, ?_⟩
        · show s.claimed ++ [s.ctr] = List.range (min (s.ctr + 1) N)
          have hm : min s.ctr N = s.ctr := Nat.min_eq_left (Nat.le_of_lt hc)
          have hm2 : min (s.ctr + 1) N = s.ctr + 1 := Nat.min_eq_left hc
          rw [hm2, List.range_succ, h1, hm]
        · intro i
          have e1 := countP_set_eq s.workers w WStatus.idle (WStatus.busy s.ctr) (isBusyAt i) hw
          have e2 := countP_set_eq s.workers w WStatus.idle (WStatus.busy s.ctr) (isDeadAt i) hw
          have h2i := h2 i
          have hcnt := count_append_singleton s.claimed s.ctr i
          show (s.claimed ++ [s.ctr]).count i =
            s.completed.count i +
            (s.workers.set w (WStatus.busy s.ctr)).countP (isBusyAt i) +
            (s.workers.set w (WStatus.busy s.ctr)).countP (isDeadAt i)
          simp only [isBusyAt, isDeadAt, cond_false] at e1 e2
          omega
        · intro st hst i hdead
          rcases List.mem_or_eq_of_mem_set hst with hmem | hb
          · exact h4 st hmem i hdead
          · rw [hb] at hdead; exact WStatus.noConfusion hdead
        · rintro ⟨st, hst, hdone⟩
          rcases List.mem_or_eq_of_mem_set hst with hmem | hb
          · exact Nat.le_succ_of_le (h5 ⟨st, hmem, hdone⟩)
          · rw [hb] at hdone; exact WStatus.noConfusion hdone
      · simp only [hc, if_false]
        refine ⟨?_, ?_, h3, ?_, ?_⟩
        · show s.claimed = List.range (min (s.ctr + 1) N)
          have hm : min s.ctr N = N := Nat.min_eq_right (Nat.le_of_not_lt hc)
          have hm2 : min (s.ctr + 1) N = N :=
            Nat.min_eq_right (Nat.le_succ_of_le (Nat.le_of_not_lt hc))
          rw [hm2, ← hm, h1, hm]
        · intro i
          have e1 := countP_set_eq s.workers w WStatus.idle WStatus.done (isBusyAt i) hw
          have e2 := countP_set_eq s.workers w WStatus.idle WStatus.done (isDeadAt i) hw
          have h2i := h2 i
          show s.claimed.count i =
            s.completed.count i +
            (s.workers.set w WStatus.done).countP (isBusyAt i) +
            (s.workers.set w WStatus.done).countP (isDeadAt i)
          simp only [isBusyAt, isDeadAt, cond_false] at e1 e2
          omega
        · intro st hst i hdead
          rcases List.mem_or_eq_of_mem_set hst with hmem | hb
          · exact h4 st hmem i hdead
          · rw [hb] at hdead; exact WStatus.noConfusion hdead
        · intro _
          exact Nat.le_succ_of_le (Nat.le_of_not_lt hc)
    | busy idx =>
      by_cases ht : th idx = true
      · simp only [ht, if_true]
        refine ⟨h1, ?_, h3, ?_, ?_⟩
        · intro i
          have e1 := countP_set_eq s.workers w (WStatus.busy idx) (WStatus.dead idx) (isBusyAt i) hw
          have e2 := countP_set_eq s.workers w (WStatus.busy idx) (WStatus.dead idx) (isDeadAt i) hw
          have h2i := h2 i
          show s.claimed.count i =
            s.completed.count i +
            (s.workers.set w (WStatus.dead idx)).countP (isBusyAt i) +
            (s.workers.set w (WStatus.dead idx)).countP (isDeadAt i)
          simp only [isBusyAt, isDeadAt, cond_false] at e1 e2
          omega
        · intro st hst i hdead
          rcases List.mem_or_eq_of_mem_set hst with hmem | hb
          · exact h4 st hmem i hdead
          · rw [hb] at hdead
            injection hdead with hji
            rw [← hji]
            exact ht
        · rintro ⟨st, hst, hdone⟩
          rcases List.mem_or_eq_of_mem_set hst with hmem | hb
          · exact h5 ⟨st, hmem, hdone⟩
          · rw [hb] at hdone; exact WStatus.noConfusion hdone
      · simp only [ht, if_false]
        have htf : th idx = false := by
          revert ht; cases th idx <;> simp
        refine ⟨h1, ?_, ?_, ?_, ?_⟩
        · intro i
          have e1 := countP_set_eq s.workers w (WStatus.busy idx) WStatus.idle (isBusyAt i) hw
          have e2 := countP_set_eq s.workers w (WStatus.busy idx) WStatus.idle (isDeadAt i) hw
          have h2i := h2 i
          have hcnt := count_append_singleton s.completed idx i
          show s.claimed.count i =
            (s.completed ++ [idx]).count i +
            (s.workers.set w WStatus.idle).countP (isBusyAt i) +
            (s.workers.set w WStatus.idle).countP (isDeadAt i)
          simp only [isBusyAt, isDeadAt, cond_false] at e1 e2
          omega
        · intro i hi
          rcases List.mem_append.mp hi with hmem | hone
          · exact h3 i hmem
          · have : i = idx := by simpa using hone
            rw [this]
            exact htf
        · intro st hst i hdead
          rcases List.mem_or_eq_of_mem_set hst with hmem | hb
          · exact h4 st hmem i hdead
          · rw [hb] at hdead; exact WStatus.noConfusion hdead
        · rintro ⟨st, hst, hdone⟩
          rcases List.mem_or_eq_of_mem_set hst with hmem | hb
          · exact h5 ⟨st, hmem, hdone⟩
          · rw [hb] at hdone; exact WStatus.noConfusion hdone
    | dead idx => exact ⟨h1, h2, h3, h4, h5⟩
    | done => exact ⟨h1, h2, h3, h4, h5⟩

/-- Helper: the invariant holds after any schedule. -/
theorem mlInv_run (N : Nat) (th : Nat → Bool) (K : Nat) (sched : List Nat) :
    mlInv N th (mlRun N th K sched) := by
  suffices h : ∀ s : MLState, mlInv N th s → mlInv N th (sched.foldl (mlStep N th) s) by
    exact h _ (mlInv_init N th K)
  induction sched with
  | nil => exact fun s hs => hs
  | cons a tl ih => exact fun s hs => ih _ (mlInv_step N th s a hs)

/-- C2 counterexample: the claim quantifies over every item sequence and
limit, but when every worker's invocation can throw, items can be lost:
with 2 items and limit 1, the single worker dies on item 1, and item 2 is
never claimed, never invoked, and never completes — refuting "mapLimit
invokes the supplied per-item worker function on every item exactly once
… and if [one] worker invocation throws, [the other items] still
complete" in general. -/
theorem mapLimit_counterexample :
    quiescent (mlRun 2 (fun i => i == 0) 1 [0, 0]) = true ∧
    (mlRun 2 (fun i => i == 0) 1 [0, 0]).claimed ≠ List.range 2 ∧
    ¬ 1 ∈ (mlRun 2 (fun i => i == 0) 1 [0, 0]).completed := by
  decide

/-- C2 (amended): for every schedule of the worker pool, at most
`max 1 K` invocations are in flight (hence at most `K` when `K ≥ 1`), and
for every complete (quiescent) schedule, provided fewer than `max 1 K`
distinct items' invocations throw, every item index is claimed from the
shared counter exactly once (in counter order), no invocation completes
twice, and every item whose invocation does not throw runs to completion
— covering the 10-items/limit-3 scenario where only item 4 throws. -/
theorem mapLimit_spec (N K : Nat) (th : Nat → Bool) :
    (∀ sched : List Nat, busyCount (mlRun N th K sched) ≤ max 1 K) ∧
    (1 ≤ K → ∀ sched : List Nat, busyCount (mlRun N th K sched) ≤ K) ∧
    (∀ sched : List Nat, quiescent (mlRun N th K sched) = true →
       ((List.range N).filter th).length < max 1 K →
       (mlRun N th K sched).claimed = List.range N ∧
       (∀ i : Nat, (mlRun N th K sched).completed.count i ≤ 1) ∧
       (∀ i : Nat, i < N → th i = false → i ∈ (mlRun N th K sched).completed)) := by
  have hbound : ∀ sched : List Nat, busyCount (mlRun N th K sched) ≤ max 1 K := by
    intro sched
    calc busyCount (mlRun N th K sched) ≤ (mlRun N th K sched).workers.length :=
          List.countP_le_length isBusy
      _ = max 1 K := mlRun_workers_length N th K sched
  refine ⟨hbound, ?_, ?_⟩
  · intro hK sched
    have := hbound sched
    rw [Nat.max_eq_right hK] at this
    exact this
  · intro sched hq hfew
    obtain ⟨h1, h2, h3, h4, h5⟩ := mlInv_run N th K sched
    have hwlen := mlRun_workers_length N th K sched
    have hall := List.all_eq_true.mp hq
    -- per-index claim bound
    have hclaims : ∀ i : Nat, (mlRun N th K sched).claimed.count i ≤ 1 := by
      intro i
      rw [h1]
      exact List.nodup_iff_count_le_one.mp (List.nodup_range _) i
    -- dead workers carry distinct throwing indices below N
    have hDcnt : ∀ i : Nat,
        (deadIdxs (mlRun N th K sched)).count i =
          (mlRun N th K sched).workers.countP (isDeadAt i) :=
      fun i => deadIdxs_count (mlRun N th K sched).workers i
    have hDnodup : (deadIdxs (mlRun N th K sched)).Nodup := by
      rw [List.nodup_iff_count_le_one]
      intro i
      have := h2 i
      have := hclaims i
      rw [hDcnt i]
      omega
    have hDsub : deadIdxs (mlRun N th K sched) ⊆ (List.range N).filter th := by
      intro i hi
      obtain ⟨st, hst, hsteq⟩ := List.mem_filterMap.mp hi
      have hstd : st = WStatus.dead i := by
        cases st with
        | idle => exact absurd hsteq (by simp)
        | busy j => exact absurd hsteq (by simp)
        | done => exact absurd hsteq (by simp)
        | dead j =>
          have : j = i := by simpa using hsteq
          rw [this]
      have hthi : th i = true := h4 st hst i hstd
      have hdpos : 0 < (mlRun N th K sched).workers.countP (isDeadAt i) :=
        List.countP_pos_iff.mpr ⟨st, hst, by rw [hstd]; simp [isDeadAt]⟩
      have hclpos : 0 < (mlRun N th K sched).claimed.count i := by
        have := h2 i
        omega
      have hmem : i ∈ (mlRun N th K sched).claimed := List.count_pos_iff.mp hclpos
      rw [h1] at hmem
      have hiN : i < N := lt_of_lt_of_le (List.mem_range.mp hmem) (Nat.min_le_right _ _)
      exact List.mem_filter.mpr ⟨List.mem_range.mpr hiN, hthi⟩
    have hDlen : (deadIdxs (mlRun N th K sched)).length ≤
        ((List.range N).filter th).length :=
      (List.subperm_of_subset hDnodup hDsub).length_le
    have hDlen2 : (deadIdxs (mlRun N th K sched)).length =
        (mlRun N th K sched).workers.countP isDead :=
      deadIdxs_length (mlRun N th K sched).workers
    -- some worker returned normally, so the counter passed N
    have hdd := countP_done_dead (mlRun N th K sched).workers hall
    have hdonepos : 0 < (mlRun N th K sched).workers.countP isDone := by omega
    obtain ⟨st, hst, hstdone⟩ := List.countP_pos_iff.mp hdonepos
    have hstd : st = WStatus.done := by
      cases st with
      | idle => simp [isDone] at hstdone
      | busy j => simp [isDone] at hstdone
      | dead j => simp [isDone] at hstdone
      | done => rfl
    have hN : N ≤ (mlRun N th K sched).ctr := h5 ⟨st, hst, hstd⟩
    have hclaimrange : (mlRun N th K sched).claimed = List.range N := by
      rw [h1, Nat.min_eq_right hN]
    -- no invocation is still in flight at quiescence
    have hbusy0 : ∀ i : Nat, (mlRun N th K sched).workers.countP (isBusyAt i) = 0 := by
      intro i
      refine List.countP_eq_zero.mpr fun st2 hst2 => ?_
      have := hall st2 hst2
      cases st2 with
      | idle => simp [isDone, isDead] at this
      | busy j => simp [isDone, isDead] at this
      | dead j => simp [isBusyAt]
      | done => simp [isBusyAt]
    refine ⟨hclaimrange, ?_, ?_⟩
    · intro i
      have := h2 i
      have := hclaims i
      omega
    · intro i hiN hthi
      have h2i := h2 i
      have hcl : (mlRun N th K sched).claimed.count i = 1 := by
        rw [hclaimrange]
        exact List.count_eq_one_of_mem (List.nodup_range N) (List.mem_range.mpr hiN)
      have hdead0 : (mlRun N th K sched).workers.countP (isDeadAt i) = 0 := by
        refine List.countP_eq_zero.mpr fun st2 hst2 => ?_
        cases st2 with
        | idle => simp [isDeadAt]
        | busy j => simp [isDeadAt]
        | done => simp [isDeadAt]
        | dead j =>
          simp only [isDeadAt]
          intro hji
          have : j = i := by simpa using hji
          subst this
          have := h4 _ hst2 j rfl
          rw [hthi] at this
          exact Bool.noConfusion this
      rw [hbusy0 i, hdead0, hcl] at h2i
      exact List.count_pos_iff.mp (by omega)

/-- C2 witness: the amended theorem at the spec scenario — 10 items,
limit 3, item 4 (index 3) throwing — on a complete round-robin schedule:
all ten indices are claimed exactly once and the non-throwing items
complete. -/
theorem mapLimit_spec_witness :
    quiescent (mlRun 10 throwsW 3 schedW) = true ∧
    ((List.range 10).filter throwsW).length < max 1 3 ∧
    (mlRun 10 throwsW 3 schedW).claimed = List.range 10 ∧
    2 ∈ (mlRun 10 throwsW 3 schedW).completed ∧
    9 ∈ (mlRun 10 throwsW 3 schedW).completed ∧
    busyCount (mlRun 10 throwsW 3 schedW) ≤ 3 :=
  ⟨by decide, by decide,
   ((mapLimit_spec 10 3 throwsW).2.2 schedW (by decide) (by decide)).1,
   ((mapLimit_spec 10 3 throwsW).2.2 schedW (by decide) (by decide)).2.2 2 (by decide) (by decide),
   ((mapLimit_spec 10 3 throwsW).2.2 schedW (by decide) (by decide)).2.2 9 (by decide) (by decide),
   (mapLimit_spec 10 3 throwsW).2.1 (by decide) schedW⟩

/-- C10 witness: the theorem applied at concrete scores. -/
theorem tierFromScore_total_monotone_witness :
    tierFromScore (-7) = (("BASIC" : String), ("COLD" : String)) ∧
    tierFromScore 133 = (("PLATINUM" : String), ("HOT" : String)) ∧
    tierOrdinal (tierFromScore 25).1 ≤ tierOrdinal (tierFromScore 85).1 :=
  ⟨tierFromScore_total_monotone.1 (-7) (by decide),
   tierFromScore_total_monotone.2.1 133 (by decide),
   tierFromScore_total_monotone.2.2 25 85 (by decide)⟩

end DentalLeadEngine
